import Mathlib

/-!
Shallow embedding of the parking-lot core (spot registry, session ledger,
fee policy, allocator, coordinator) from the TypeScript sources:
`interfaces/allocator.ts`, `dtos/session.dto.ts`, `infra/inMemoryRepos.ts`,
`services/flatFeeCalculator.ts`, `services/feeCalculatorFactory.ts`,
`services/simpleAllocator.ts`, `services/parkingService.ts`.

Timestamps (`Date.getTime()`) are embedded as integers counting
milliseconds; monetary amounts (JS `number`) as rationals, so that the
arithmetic of the fee formula is exact; `Math.ceil` on an exact quotient
becomes the integer ceiling of a rational.  The in-memory repositories are
lists threaded explicitly through each operation, and a thrown `Error`
becomes the error branch of `Except`.
-/

namespace Parking

/-- Embeds `VehicleType` from `interfaces/allocator.ts`: `'MOTORCYCLE' | 'CAR' | 'BUS'`. -/
inductive VehicleType
  | MOTORCYCLE
  | CAR
  | BUS
deriving DecidableEq

/-- Embeds `VehicleDto` from `interfaces/allocator.ts`: `{ plate: string; type: VehicleType }`. -/
structure VehicleDto where
  plate : String
  type : VehicleType
deriving DecidableEq

/-- Spot status from `interfaces/allocator.ts`: `'AVAILABLE' | 'RESERVED' | 'OCCUPIED'`. -/
inductive SpotStatus
  | AVAILABLE
  | RESERVED
  | OCCUPIED
deriving DecidableEq

/-- Embeds `ParkingSpot` from `interfaces/allocator.ts`. -/
structure ParkingSpot where
  id : String
  size : VehicleType
  code : String
  status : SpotStatus
  distanceRank : ℤ
deriving DecidableEq

/-- Embeds `ParkingSession` from `dtos/session.dto.ts`; `exitTime?` and `amount?`
are optional fields, absent while the session is open. -/
structure ParkingSession where
  id : String
  vehicle : VehicleDto
  spotId : String
  entryTime : ℤ
  exitTime : Option ℤ
  amount : Option ℚ
deriving DecidableEq

/-- The rate configuration held by `FlatPerHourCalculator` in
`services/flatFeeCalculator.ts`: constructor fields
`(base, perHour, graceMinutes)`.  Every configuration appearing in the
source (`FeeCalculatorFactory` and the constructor default) has a whole
non-negative number of grace minutes, so `graceMinutes` is a natural. -/
structure Rate where
  base : ℚ
  perHour : ℚ
  graceMinutes : ℕ
deriving DecidableEq

/-- Embeds `FlatPerHourCalculator.calculate` from `services/flatFeeCalculator.ts`:
`minutes = Math.max(0, Math.ceil((exit - entry) / 60000) - graceMinutes)`;
`hours = Math.max(0, Math.ceil(minutes / 60))`;
`amount = base + hours * perHour`.
At checkout the `exitTime` field has always just been assigned, so the
`session.exitTime || new Date()` default never fires there; the function is
embedded over the two timestamps it reads. -/
def calculate (rate : Rate) (entryTime exitTime : ℤ) : ℚ :=
  rate.base +
    ((max 0 ⌈(((max 0 (⌈(((exitTime - entryTime : ℤ) : ℚ)) / 60000⌉ - (rate.graceMinutes : ℤ))) : ℤ) : ℚ) / 60⌉ : ℤ) : ℚ) * rate.perHour

/-- Embeds `FeeCalculatorFactory.for` from `services/feeCalculatorFactory.ts`
(`for` is a reserved word in Lean).  The `default` branch of the `switch`
is unreachable because `VehicleType` has exactly the three listed values. -/
def FeeCalculatorFactory.forType : VehicleType → Rate
  | .MOTORCYCLE => ⟨1/2, 1, 15⟩
  | .CAR => ⟨1, 2, 10⟩
  | .BUS => ⟨2, 5, 0⟩

/-- Embeds `InMemorySpotRepo.listAvailableBySize` from `infra/inMemoryRepos.ts`:
`spots.filter(s => s.status === 'AVAILABLE' && s.size === size)`. -/
def InMemorySpotRepo.listAvailableBySize (spots : List ParkingSpot) (size : VehicleType) :
    List ParkingSpot :=
  spots.filter (fun s => s.status == SpotStatus.AVAILABLE && s.size == size)

/-- Embeds `InMemorySpotRepo.findById` from `infra/inMemoryRepos.ts`:
`spots.find(s => s.id === id)`. -/
def InMemorySpotRepo.findById (spots : List ParkingSpot) (id : String) : Option ParkingSpot :=
  spots.find? (fun s => s.id == id)

/-- Embeds `InMemorySpotRepo.update` from `infra/inMemoryRepos.ts`: find the index
of the first stored spot whose id matches and overwrite that slot; leave
the list unchanged when no id matches. -/
def InMemorySpotRepo.update (spot : ParkingSpot) : List ParkingSpot → List ParkingSpot
  | [] => []
  | s :: rest =>
      if s.id == spot.id then spot :: rest else s :: InMemorySpotRepo.update spot rest

/-- Embeds `InMemorySessionRepo.create` from `infra/inMemoryRepos.ts`:
`this.sessions.push(s)` — unconditional append at the end. -/
def InMemorySessionRepo.create (s : ParkingSession) (sessions : List ParkingSession) :
    List ParkingSession :=
  sessions ++ [s]

/-- Embeds `InMemorySessionRepo.close` from `infra/inMemoryRepos.ts`:
`const s = this.sessions.find(x => x.id === id); if (s) { s.exitTime = exitTime; s.amount = amount; }`
— set both fields on the first session whose id matches (open or closed),
and do nothing when no session has that id. -/
def InMemorySessionRepo.close (id : String) (exitTime : ℤ) (amount : ℚ) :
    List ParkingSession → List ParkingSession
  | [] => []
  | s :: rest =>
      if s.id == id then { s with exitTime := some exitTime, amount := some amount } :: rest
      else s :: InMemorySessionRepo.close id exitTime amount rest

/-- The two in-memory repositories threaded through the service:
`InMemorySpotRepo.spots` and `InMemorySessionRepo.sessions`. -/
structure State where
  spots : List ParkingSpot
  sessions : List ParkingSession
deriving DecidableEq

/-- Errors thrown by the core: `throw new Error('NoSpace')` in
`SimpleAllocator.allocate` and `throw new Error('NotFound')` in
`ParkingService.checkOut`. -/
inductive ParkingError
  | NoSpace
  | NotFound
deriving DecidableEq

/-- One comparison step of
`candidates.sort((a, b) => a.distanceRank - b.distanceRank)` followed by
`candidates[0]`: keep the current best unless the next candidate has a
strictly smaller `distanceRank`. -/
def pickCloser (best s : ParkingSpot) : ParkingSpot :=
  if s.distanceRank < best.distanceRank then s else best

/-- Embeds `candidates.sort((a, b) => a.distanceRank - b.distanceRank)` then
`candidates[0]` in `services/simpleAllocator.ts`.  JavaScript
`Array.prototype.sort` is stable, so sorting by `distanceRank` and taking
element 0 yields the first-encountered candidate of minimal
`distanceRank`; a single left fold computes exactly that element. -/
def firstMinByRank : List ParkingSpot → Option ParkingSpot
  | [] => none
  | c :: rest => some (rest.foldl pickCloser c)

/-- Embeds `SimpleAllocator.allocate` from `services/simpleAllocator.ts`: list the
available spots of the vehicle's size, throw `NoSpace` when there are
none, pick the sorted head, mark it `OCCUPIED` (the in-place mutation of
`chosen` followed by `spotRepo.update(chosen)` replaces the stored record
with the occupied copy), and append a fresh open session.  `freshId`
stands for the generated `uuid()` and `now` for `new Date()`. -/
def SimpleAllocator.allocate (st : State) (vehicle : VehicleDto) (freshId : String) (now : ℤ) :
    Except ParkingError (ParkingSpot × State) :=
  match firstMinByRank (InMemorySpotRepo.listAvailableBySize st.spots vehicle.type) with
  | none => .error .NoSpace
  | some chosen =>
      .ok ({ chosen with status := SpotStatus.OCCUPIED },
        { spots := InMemorySpotRepo.update { chosen with status := SpotStatus.OCCUPIED } st.spots,
          sessions := InMemorySessionRepo.create
            { id := freshId, vehicle := vehicle, spotId := chosen.id,
              entryTime := now, exitTime := none, amount := none } st.sessions })

/-- Embeds `SimpleAllocator.release` from `services/simpleAllocator.ts`: look the
spot up by id; if absent, return silently; otherwise store it back with
status `AVAILABLE`. -/
def SimpleAllocator.release (spots : List ParkingSpot) (spotId : String) : List ParkingSpot :=
  match InMemorySpotRepo.findById spots spotId with
  | none => spots
  | some spot => InMemorySpotRepo.update { spot with status := SpotStatus.AVAILABLE } spots

/-- Embeds `ParkingService.checkIn` from `services/parkingService.ts`: delegate to
the allocator and surface `{ spotId, code }`. -/
def ParkingService.checkIn (st : State) (vehicle : VehicleDto) (freshId : String) (now : ℤ) :
    Except ParkingError ((String × String) × State) :=
  match SimpleAllocator.allocate st vehicle freshId now with
  | .error e => .error e
  | .ok (spot, st') => .ok ((spot.id, spot.code), st')

/-- Embeds `ParkingService.checkOut` from `services/parkingService.ts`: find the
first session with the given id — open **or closed** —, throw `NotFound`
only when no session at all has that id, assign `exitTime = now`, compute
the fee from the session's `entryTime` and the just-assigned exit instant
with the rate for the session's vehicle type, close the ledger entry, and
release the session's spot. -/
def ParkingService.checkOut (st : State) (sessionId : String) (now : ℤ) :
    Except ParkingError (ℚ × State) :=
  match st.sessions.find? (fun s => s.id == sessionId) with
  | none => .error .NotFound
  | some session =>
      .ok (calculate (FeeCalculatorFactory.forType session.vehicle.type) session.entryTime now,
        { spots := SimpleAllocator.release st.spots session.spotId,
          sessions := InMemorySessionRepo.close sessionId now
            (calculate (FeeCalculatorFactory.forType session.vehicle.type) session.entryTime now)
            st.sessions })

/-- One external operation of the coordinator, with the data the
environment supplies (vehicle, generated session id, clock reading). -/
inductive Op
  | checkInOp (vehicle : VehicleDto) (freshId : String) (now : ℤ)
  | checkOutOp (sessionId : String) (now : ℤ)

/-- Apply one coordinator operation to the repositories.  A thrown error
propagates out of the service before any repository write, so a failed
operation leaves the state exactly as it was. -/
def step (st : State) : Op → State
  | .checkInOp v freshId now =>
      match ParkingService.checkIn st v freshId now with
      | .ok (_, st') => st'
      | .error _ => st
  | .checkOutOp sessionId now =>
      match ParkingService.checkOut st sessionId now with
      | .ok (_, st') => st'
      | .error _ => st

/-- The open sessions referencing a given spot id — the sessions with
`exitTime` absent whose `spotId` matches. -/
def openSessionsFor (sessions : List ParkingSession) (spotId : String) : List ParkingSession :=
  sessions.filter (fun s => s.exitTime == none && s.spotId == spotId)

/-- The fee formula exactly as the specification words it:
`amount = rate.base + ceil(max(0, ceil((exitTime - entryTime) in minutes) - rate.graceMinutes) / 60) * rate.perHour`. -/
def amountSpec (rate : Rate) (entryTime exitTime : ℤ) : ℚ :=
  rate.base +
    ((⌈(((max 0 (⌈((exitTime - entryTime : ℤ) : ℚ) / 60000⌉ - (rate.graceMinutes : ℤ))) : ℤ) : ℚ) / 60⌉ : ℤ) : ℚ) * rate.perHour

/-- Integer form of the ceiling of `a / d`, used to evaluate the fee
formula on concrete inputs. -/
def ceilDiv (a : ℤ) (d : ℕ) : ℤ :=
  -(-a / (d : ℤ))

/-- The `Math.ceil((exit - entry) / 60000)` subterm of the fee formula. -/
def elapsedCeilMinutes (e x : ℤ) : ℤ :=
  ⌈((x - e : ℤ) : ℚ) / 60000⌉

/-- The `Math.max(0, Math.ceil(minutes / 60))` subterm of the fee formula,
with `minutes = Math.max(0, elapsedCeilMinutes - graceMinutes)`. -/
def billableHours (rate : Rate) (e x : ℤ) : ℤ :=
  max 0 ⌈(((max 0 (elapsedCeilMinutes e x - (rate.graceMinutes : ℤ))) : ℤ) : ℚ) / 60⌉

/-! Helper lemmas for evaluating the fee formula. -/

lemma ceil_ratCast_div (a : ℤ) (d : ℕ) : ⌈((a : ℤ) : ℚ) / ((d : ℕ) : ℚ)⌉ = ceilDiv a d := by
  have h : (⌊(((-a : ℤ) : ℚ)) / ((d : ℕ) : ℚ)⌋ : ℤ) = -a / (d : ℤ) :=
    Rat.floor_intCast_div_natCast (-a) d
  have hneg : -(((a : ℤ) : ℚ) / ((d : ℕ) : ℚ)) = (((-a : ℤ) : ℚ)) / ((d : ℕ) : ℚ) := by
    push_cast
    ring
  have := Int.floor_neg (a := ((a : ℤ) : ℚ) / ((d : ℕ) : ℚ))
  rw [hneg, h] at this
  rw [ceilDiv, this, neg_neg]

lemma calculate_eq (rate : Rate) (e x : ℤ) :
    calculate rate e x =
      rate.base +
        ((max 0 (ceilDiv (max 0 (ceilDiv (x - e) 60000 - (rate.graceMinutes : ℤ))) 60) : ℤ) : ℚ) *
          rate.perHour := by
  have h1 : (60000 : ℚ) = ((60000 : ℕ) : ℚ) := by norm_num
  have h2 : (60 : ℚ) = ((60 : ℕ) : ℚ) := by norm_num
  rw [calculate, h1, h2, ceil_ratCast_div, ceil_ratCast_div]

lemma calculate_eval (rate : Rate) (e x h : ℤ)
    (hh : max 0 (ceilDiv (max 0 (ceilDiv (x - e) 60000 - (rate.graceMinutes : ℤ))) 60) = h) :
    calculate rate e x = rate.base + (h : ℚ) * rate.perHour := by
  rw [calculate_eq, hh]

/-- The scenario of `tests/feeCalculator.test.ts`: rate (1, 2, 10), a stay
of 30 minutes, amount 3. -/
lemma calculate_test_scenario : calculate ⟨1, 2, 10⟩ 0 (30 * 60000) = 3 := by
  rw [calculate_eval ⟨1, 2, 10⟩ 0 (30 * 60000) 1 (by decide)]
  norm_num

lemma calculate_def (rate : Rate) (e x : ℤ) :
    calculate rate e x = rate.base + ((billableHours rate e x : ℤ) : ℚ) * rate.perHour :=
  rfl

lemma billableHours_nonneg (rate : Rate) (e x : ℤ) : 0 ≤ billableHours rate e x :=
  le_max_left 0 _

lemma billableHours_eq_zero {rate : Rate} {e x : ℤ}
    (h : elapsedCeilMinutes e x ≤ (rate.graceMinutes : ℤ)) :
    billableHours rate e x = 0 := by
  rw [billableHours]
  have hmax : max 0 (elapsedCeilMinutes e x - (rate.graceMinutes : ℤ)) = 0 := by omega
  rw [hmax]
  norm_num

lemma billableHours_eq_one {rate : Rate} {e x : ℤ}
    (h1 : (rate.graceMinutes : ℤ) < elapsedCeilMinutes e x)
    (h2 : elapsedCeilMinutes e x ≤ (rate.graceMinutes : ℤ) + 60) :
    billableHours rate e x = 1 := by
  rw [billableHours]
  have hmax : max 0 (elapsedCeilMinutes e x - (rate.graceMinutes : ℤ))
      = elapsedCeilMinutes e x - (rate.graceMinutes : ℤ) := by omega
  rw [hmax]
  have hc : ⌈((elapsedCeilMinutes e x - (rate.graceMinutes : ℤ) : ℤ) : ℚ) / 60⌉ = 1 := by
    rw [Int.ceil_eq_iff]
    constructor
    · have hpos : (0 : ℚ) < ((elapsedCeilMinutes e x - (rate.graceMinutes : ℤ) : ℤ) : ℚ) := by
        exact_mod_cast (by omega : (0:ℤ) < elapsedCeilMinutes e x - (rate.graceMinutes : ℤ))
      have := div_pos hpos (by norm_num : (0:ℚ) < 60)
      push_cast
      push_cast at this
      linarith
    · push_cast
      rw [div_le_one (by norm_num : (0:ℚ) < 60)]
      exact_mod_cast (by omega : elapsedCeilMinutes e x - (rate.graceMinutes : ℤ) ≤ (60:ℤ))
  rw [hc]
  norm_num

/-! Claims about the fee policy. -/

/-- Claim C3: for all entry/exit times and rate configurations, `calculate`
returns `rate.base + ceil(max(0, ceil((exit - entry) in minutes) - rate.graceMinutes) / 60) * rate.perHour`,
and zero or negative elapsed time yields exactly `rate.base`. -/
theorem calculate_eq_amountSpec (rate : Rate) (e x : ℤ) :
    calculate rate e x = amountSpec rate e x ∧ (x ≤ e → calculate rate e x = rate.base) := by
  constructor
  · rw [calculate_def, billableHours]
    have hm : (0:ℤ) ≤ max 0 (elapsedCeilMinutes e x - (rate.graceMinutes : ℤ)) :=
      le_max_left 0 _
    have hc : (0:ℤ) ≤
        ⌈(((max 0 (elapsedCeilMinutes e x - (rate.graceMinutes : ℤ))) : ℤ) : ℚ) / 60⌉ :=
      Int.ceil_nonneg (div_nonneg (by exact_mod_cast hm) (by norm_num))
    rw [max_eq_right hc]
    rfl
  · intro hx
    have hA : elapsedCeilMinutes e x ≤ (0 : ℤ) := by
      rw [elapsedCeilMinutes, Int.ceil_le]
      have hnum : ((x - e : ℤ) : ℚ) ≤ 0 := by exact_mod_cast sub_nonpos.mpr hx
      push_cast
      push_cast at hnum
      exact div_nonpos_iff.mpr (Or.inr ⟨hnum, by norm_num⟩)
    have hg : (0:ℤ) ≤ (rate.graceMinutes : ℤ) := Int.natCast_nonneg _
    rw [calculate_def, billableHours_eq_zero (by omega)]
    norm_num

/-- Witness for C3 at a concrete input: zero elapsed time with the CAR rate
bills exactly the base charge, and the spec formula agrees with the code at
the 30-minute scenario. -/
theorem calculate_eq_amountSpec_witness :
    calculate ⟨1, 2, 10⟩ 5 5 = (⟨1, 2, 10⟩ : Rate).base ∧
      calculate ⟨1, 2, 10⟩ 0 1800000 = amountSpec ⟨1, 2, 10⟩ 0 1800000 :=
  ⟨(calculate_eq_amountSpec ⟨1, 2, 10⟩ 5 5).2 (by decide),
   (calculate_eq_amountSpec ⟨1, 2, 10⟩ 0 1800000).1⟩

/-- Claim C8: a positive duration of at most `graceMinutes` minutes bills
exactly `rate.base`, and a duration in `(graceMinutes, graceMinutes + 60]`
minutes bills exactly `rate.base + rate.perHour`, however close the
duration is to either boundary. -/
theorem calculate_grace_boundaries (rate : Rate) (e d : ℤ) :
    (0 < d → d ≤ (rate.graceMinutes : ℤ) * 60000 → calculate rate e (e + d) = rate.base) ∧
      ((rate.graceMinutes : ℤ) * 60000 < d → d ≤ ((rate.graceMinutes : ℤ) + 60) * 60000 →
        calculate rate e (e + d) = rate.base + rate.perHour) := by
  have hsub : elapsedCeilMinutes e (e + d) = ⌈((d : ℤ) : ℚ) / 60000⌉ := by
    rw [elapsedCeilMinutes]
    norm_num
  constructor
  · intro _ hle
    have hA : elapsedCeilMinutes e (e + d) ≤ (rate.graceMinutes : ℤ) := by
      rw [hsub, Int.ceil_le, div_le_iff (by norm_num : (0:ℚ) < 60000)]
      exact_mod_cast hle
    rw [calculate_def, billableHours_eq_zero hA]
    norm_num
  · intro hgt hle
    have hA1 : (rate.graceMinutes : ℤ) < elapsedCeilMinutes e (e + d) := by
      rw [hsub, Int.lt_ceil, lt_div_iff (by norm_num : (0:ℚ) < 60000)]
      exact_mod_cast hgt
    have hA2 : elapsedCeilMinutes e (e + d) ≤ (rate.graceMinutes : ℤ) + 60 := by
      rw [hsub, Int.ceil_le, div_le_iff (by norm_num : (0:ℚ) < 60000)]
      have h60 : ((d : ℤ) : ℚ) ≤ ((((rate.graceMinutes : ℤ) + 60) * 60000 : ℤ) : ℚ) := by
        exact_mod_cast hle
      push_cast at h60 ⊢
      linarith
    rw [calculate_def, billableHours_eq_one hA1 hA2]
    norm_num

/-- Witness for C8 with the CAR rate (base 1, perHour 2, grace 10): a
10-minute stay bills 1 = base; one millisecond past the grace period bills
base + perHour. -/
theorem calculate_grace_boundaries_witness :
    calculate ⟨1, 2, 10⟩ 0 (0 + 600000) = (⟨1, 2, 10⟩ : Rate).base ∧
      calculate ⟨1, 2, 10⟩ 0 (0 + 600001) =
        (⟨1, 2, 10⟩ : Rate).base + (⟨1, 2, 10⟩ : Rate).perHour :=
  ⟨(calculate_grace_boundaries ⟨1, 2, 10⟩ 0 600000).1 (by decide) (by decide),
   (calculate_grace_boundaries ⟨1, 2, 10⟩ 0 600001).2 (by decide) (by decide)⟩

/-- Claim C10: for a fixed entry time and a rate with non-negative
`perHour`, the fee is monotone non-decreasing in the exit time. -/
theorem calculate_mono_in_exit (rate : Rate) (e x1 x2 : ℤ)
    (hp : 0 ≤ rate.perHour) (hx : x1 ≤ x2) :
    calculate rate e x1 ≤ calculate rate e x2 := by
  have hA : elapsedCeilMinutes e x1 ≤ elapsedCeilMinutes e x2 := by
    rw [elapsedCeilMinutes, elapsedCeilMinutes]
    apply Int.ceil_le_ceil
    apply (div_le_div_right (by norm_num : (0:ℚ) < 60000)).mpr
    exact_mod_cast (by omega : x1 - e ≤ x2 - e)
  have hm : max 0 (elapsedCeilMinutes e x1 - (rate.graceMinutes : ℤ))
      ≤ max 0 (elapsedCeilMinutes e x2 - (rate.graceMinutes : ℤ)) := by omega
  have hh : billableHours rate e x1 ≤ billableHours rate e x2 := by
    rw [billableHours, billableHours]
    have hc : ⌈(((max 0 (elapsedCeilMinutes e x1 - (rate.graceMinutes : ℤ))) : ℤ) : ℚ) / 60⌉
        ≤ ⌈(((max 0 (elapsedCeilMinutes e x2 - (rate.graceMinutes : ℤ))) : ℤ) : ℚ) / 60⌉ := by
      apply Int.ceil_le_ceil
      apply (div_le_div_right (by norm_num : (0:ℚ) < 60)).mpr
      exact_mod_cast hm
    omega
  rw [calculate_def, calculate_def]
  have hcast : ((billableHours rate e x1 : ℤ) : ℚ) ≤ ((billableHours rate e x2 : ℤ) : ℚ) := by
    exact_mod_cast hh
  exact add_le_add_left (mul_le_mul_of_nonneg_right hcast hp) _

/-- Witness for C10: with the CAR rate and entry 0, a 30-minute stay costs
no more than a 90-minute stay. -/
theorem calculate_mono_in_exit_witness :
    calculate ⟨1, 2, 10⟩ 0 1800000 ≤ calculate ⟨1, 2, 10⟩ 0 5400000 :=
  calculate_mono_in_exit ⟨1, 2, 10⟩ 0 1800000 5400000 (by norm_num) (by decide)

/-! Helper lemmas about the repositories. -/

lemma find?_append_of_none {α : Type} (p : α → Bool) (l1 l2 : List α)
    (h : ∀ y ∈ l1, p y = false) :
    (l1 ++ l2).find? p = l2.find? p := by
  induction l1 with
  | nil => rfl
  | cons x l ih =>
      rw [List.cons_append, List.find?_cons_of_neg _ (by simp [h x (List.mem_cons_self x l)])]
      exact ih (fun y hy => h y (List.mem_cons_of_mem x hy))

lemma nodup_map_split {α β : Type} (f : α → β) {l pre post : List α} {s : α}
    (hnd : (l.map f).Nodup) (heq : l = pre ++ s :: post) :
    (∀ y ∈ pre, f y ≠ f s) ∧ (∀ y ∈ post, f y ≠ f s) := by
  subst heq
  rw [List.map_append, List.map_cons, List.nodup_append] at hnd
  obtain ⟨h1, h2, hdisj⟩ := hnd
  constructor
  · intro y hy heq'
    exact hdisj (List.mem_map_of_mem f hy) (by rw [heq']; exact List.mem_cons_self _ _)
  · intro y hy heq'
    exact (List.nodup_cons.mp h2).1 (by rw [← heq']; exact List.mem_map_of_mem f hy)

lemma update_of_forall_ne (t : ParkingSpot) (l : List ParkingSpot)
    (h : ∀ y ∈ l, y.id ≠ t.id) :
    InMemorySpotRepo.update t l = l := by
  induction l with
  | nil => rfl
  | cons p l ih =>
      have hp : (p.id == t.id) = false :=
        beq_eq_false_iff_ne.mpr (h p (List.mem_cons_self p l))
      rw [InMemorySpotRepo.update, hp]
      simp only [Bool.false_eq_true, if_false]
      rw [ih (fun y hy => h y (List.mem_cons_of_mem p hy))]

lemma update_append_first (t : ParkingSpot) (pre post : List ParkingSpot) (s : ParkingSpot)
    (hpre : ∀ y ∈ pre, y.id ≠ t.id) (hs : s.id = t.id) :
    InMemorySpotRepo.update t (pre ++ s :: post) = pre ++ t :: post := by
  induction pre with
  | nil =>
      rw [List.nil_append, List.nil_append, InMemorySpotRepo.update, hs]
      simp
  | cons p pre ih =>
      have hp : (p.id == t.id) = false :=
        beq_eq_false_iff_ne.mpr (hpre p (List.mem_cons_self p pre))
      rw [List.cons_append, InMemorySpotRepo.update, hp]
      simp only [Bool.false_eq_true, if_false]
      rw [ih (fun y hy => hpre y (List.mem_cons_of_mem p hy))]
      rfl

lemma close_of_forall_ne (id : String) (t : ℤ) (a : ℚ) (l : List ParkingSession)
    (h : ∀ y ∈ l, y.id ≠ id) :
    InMemorySessionRepo.close id t a l = l := by
  induction l with
  | nil => rfl
  | cons p l ih =>
      have hp : (p.id == id) = false :=
        beq_eq_false_iff_ne.mpr (h p (List.mem_cons_self p l))
      rw [InMemorySessionRepo.close, hp]
      simp only [Bool.false_eq_true, if_false]
      rw [ih (fun y hy => h y (List.mem_cons_of_mem p hy))]

lemma close_append_first (id : String) (t : ℤ) (a : ℚ)
    (pre post : List ParkingSession) (s : ParkingSession)
    (hpre : ∀ y ∈ pre, y.id ≠ id) (hs : s.id = id) :
    InMemorySessionRepo.close id t a (pre ++ s :: post)
      = pre ++ { s with exitTime := some t, amount := some a } :: post := by
  induction pre with
  | nil =>
      rw [List.nil_append, List.nil_append, InMemorySessionRepo.close, hs]
      simp
  | cons p pre ih =>
      have hp : (p.id == id) = false :=
        beq_eq_false_iff_ne.mpr (hpre p (List.mem_cons_self p pre))
      rw [List.cons_append, InMemorySessionRepo.close, hp]
      simp only [Bool.false_eq_true, if_false]
      rw [ih (fun y hy => hpre y (List.mem_cons_of_mem p hy))]
      rfl

/-! Claims about the session ledger. -/

/-- Counterexample for claim C4: at an input where no *open* session has
id `"a"` (the only session with that id is closed), `close` does not fail
with `NotFound`: it silently overwrites the closed session's `exitTime`
and `amount`; and at an input with no matching session at all it silently
returns the ledger unchanged instead of failing. -/
theorem close_claim_counterexample :
    (∀ s ∈ ([⟨"a", ⟨"P", .CAR⟩, "s1", 0, some 10, some 3⟩] : List ParkingSession),
        s.exitTime ≠ none) ∧
    InMemorySessionRepo.close "a" 100 7 [⟨"a", ⟨"P", .CAR⟩, "s1", 0, some 10, some 3⟩]
      = [⟨"a", ⟨"P", .CAR⟩, "s1", 0, some 100, some 7⟩] ∧
    InMemorySessionRepo.close "a" 100 7 ([] : List ParkingSession) = [] := by
  refine ⟨by decide, by decide, rfl⟩

/-- Claim C4 as amended: `close(id, exitTime, amount)` sets `exitTime` and
`amount` on the first session whose id matches, whether that session is
open or closed, and silently leaves the ledger unchanged when no session
has that id (it never signals `NotFound`). -/
theorem close_first_match_or_noop (id : String) (t : ℤ) (a : ℚ) :
    (∀ l : List ParkingSession, (∀ y ∈ l, y.id ≠ id) →
        InMemorySessionRepo.close id t a l = l) ∧
    (∀ (pre post : List ParkingSession) (s : ParkingSession),
        (∀ y ∈ pre, y.id ≠ id) → s.id = id →
        InMemorySessionRepo.close id t a (pre ++ s :: post)
          = pre ++ { s with exitTime := some t, amount := some a } :: post) :=
  ⟨fun l h => close_of_forall_ne id t a l h,
   fun pre post s hpre hs => close_append_first id t a pre post s hpre hs⟩

/-- Witness for the amended C4 at concrete inputs: closing id `"b"` leaves
a ledger without that id unchanged, and closes the first session carrying
that id when present behind another session. -/
theorem close_first_match_or_noop_witness :
    InMemorySessionRepo.close "b" 50 2 [⟨"a", ⟨"P", .CAR⟩, "s1", 0, none, none⟩]
      = [⟨"a", ⟨"P", .CAR⟩, "s1", 0, none, none⟩] ∧
    InMemorySessionRepo.close "b" 50 2
        ([⟨"a", ⟨"P", .CAR⟩, "s1", 0, none, none⟩] ++
          (⟨"b", ⟨"Q", .BUS⟩, "s2", 7, none, none⟩ : ParkingSession) :: [])
      = [⟨"a", ⟨"P", .CAR⟩, "s1", 0, none, none⟩] ++
          (⟨"b", ⟨"Q", .BUS⟩, "s2", 7, some 50, some 2⟩ : ParkingSession) :: [] :=
  ⟨(close_first_match_or_noop "b" 50 2).1 _ (by decide),
   (close_first_match_or_noop "b" 50 2).2 _ [] ⟨"b", ⟨"Q", .BUS⟩, "s2", 7, none, none⟩
     (by decide) rfl⟩

/-- Counterexample for claim C5: `create` does not fail with `DuplicateId`
when the session's id is already present — it appends a second session
with the same id. -/
theorem create_claim_counterexample :
    InMemorySessionRepo.create ⟨"a", ⟨"P", .CAR⟩, "s1", 0, none, none⟩
        [⟨"a", ⟨"P", .CAR⟩, "s1", 0, none, none⟩]
      = [⟨"a", ⟨"P", .CAR⟩, "s1", 0, none, none⟩, ⟨"a", ⟨"P", .CAR⟩, "s1", 0, none, none⟩] :=
  rfl

/-- Claim C5 as amended: `create(session)` appends the session to the end
of the ledger unconditionally; when a session with the same id is already
present the ledger afterwards holds at least two sessions with that id
(there is no `DuplicateId` check — under correct Allocator use ids are
freshly generated, so the situation does not arise). -/
theorem create_appends_unconditionally (sessions : List ParkingSession) (s : ParkingSession)
    (h : ∃ s' ∈ sessions, s'.id = s.id) :
    InMemorySessionRepo.create s sessions = sessions ++ [s] ∧
      2 ≤ ((InMemorySessionRepo.create s sessions).filter (fun x => x.id == s.id)).length := by
  obtain ⟨s', hs', hid⟩ := h
  refine ⟨rfl, ?_⟩
  rw [InMemorySessionRepo.create, List.filter_append, List.length_append]
  have hmem : s' ∈ sessions.filter (fun x => x.id == s.id) :=
    List.mem_filter.mpr ⟨hs', by simp [hid]⟩
  have h1 : 0 < (sessions.filter (fun x => x.id == s.id)).length :=
    List.length_pos_of_mem hmem
  have h2 : (([s] : List ParkingSession).filter (fun x => x.id == s.id)).length = 1 := by
    simp
  omega

/-- Witness for the amended C5: creating a session whose id `"a"` is
already in the ledger yields a ledger with two sessions with id `"a"`. -/
theorem create_appends_unconditionally_witness :
    InMemorySessionRepo.create ⟨"a", ⟨"Q", .BUS⟩, "s2", 5, none, none⟩
        [⟨"a", ⟨"P", .CAR⟩, "s1", 0, none, none⟩]
      = [⟨"a", ⟨"P", .CAR⟩, "s1", 0, none, none⟩] ++ [⟨"a", ⟨"Q", .BUS⟩, "s2", 5, none, none⟩] ∧
    2 ≤ ((InMemorySessionRepo.create ⟨"a", ⟨"Q", .BUS⟩, "s2", 5, none, none⟩
        [⟨"a", ⟨"P", .CAR⟩, "s1", 0, none, none⟩]).filter
          (fun x => x.id == "a")).length :=
  create_appends_unconditionally [⟨"a", ⟨"P", .CAR⟩, "s1", 0, none, none⟩]
    ⟨"a", ⟨"Q", .BUS⟩, "s2", 5, none, none⟩ (by decide)

/-! Helper lemmas about the allocator. -/

lemma pickCloser_rank_le (a x : ParkingSpot) : (pickCloser a x).distanceRank ≤ a.distanceRank := by
  rw [pickCloser]
  split
  · omega
  · exact le_refl _

lemma foldl_pickCloser_rank_le (l : List ParkingSpot) :
    ∀ a : ParkingSpot, (l.foldl pickCloser a).distanceRank ≤ a.distanceRank := by
  induction l with
  | nil => intro a; exact le_refl _
  | cons x l ih =>
      intro a
      rw [List.foldl_cons]
      exact le_trans (ih (pickCloser a x)) (pickCloser_rank_le a x)

/-- The fold that embeds `sort`-then-`[0]` returns the first-encountered
element of minimal `distanceRank`: the list splits around the result, every
element strictly before it has strictly greater rank, and every element
after it has greater-or-equal rank. -/
lemma foldl_pickCloser_split (l : List ParkingSpot) :
    ∀ a : ParkingSpot, ∃ pre post,
      a :: l = pre ++ (l.foldl pickCloser a) :: post ∧
      (∀ y ∈ pre, (l.foldl pickCloser a).distanceRank < y.distanceRank) ∧
      (∀ y ∈ post, (l.foldl pickCloser a).distanceRank ≤ y.distanceRank) := by
  induction l with
  | nil =>
      intro a
      exact ⟨[], [], rfl, by simp, by simp⟩
  | cons x l ih =>
      intro a
      rw [List.foldl_cons]
      by_cases hx : x.distanceRank < a.distanceRank
      · have hax : pickCloser a x = x := if_pos hx
        rw [hax]
        obtain ⟨pre, post, heq, hpre, hpost⟩ := ih x
        refine ⟨a :: pre, post, ?_, ?_, hpost⟩
        · rw [List.cons_append, ← heq]
        · intro y hy
          rcases List.mem_cons.mp hy with hya | hyp
          · subst hya
            have h1 := foldl_pickCloser_rank_le l x
            omega
          · exact hpre y hyp
      · have hax : pickCloser a x = a := if_neg hx
        rw [hax]
        obtain ⟨pre, post, heq, hpre, hpost⟩ := ih a
        cases pre with
        | nil =>
            rw [List.nil_append] at heq
            injection heq with h1 h2
            refine ⟨[], x :: l, ?_, by simp, ?_⟩
            · rw [List.nil_append, ← h1]
            · intro y hy
              rcases List.mem_cons.mp hy with hya | hyp
              · subst hya
                rw [← h1]
                omega
              · rw [h2] at hyp
                exact hpost y hyp
        | cons p pre' =>
            rw [List.cons_append] at heq
            injection heq with h1 h2
            have hpa : (l.foldl pickCloser a).distanceRank < a.distanceRank := by
              have hp := hpre p (List.mem_cons_self p pre')
              rw [← h1] at hp
              exact hp
            refine ⟨a :: x :: pre', post, ?_, ?_, hpost⟩
            · rw [List.cons_append, List.cons_append, ← h2]
            · intro y hy
              rcases List.mem_cons.mp hy with hya | hy'
              · subst hya; exact hpa
              · rcases List.mem_cons.mp hy' with hyx | hyp
                · subst hyx; omega
                · exact hpre y (List.mem_cons_of_mem p hyp)

/-- Postcondition of a successful `SimpleAllocator.allocate` on a spot
registry with distinct ids and at least one available spot of the
vehicle's size: the chosen spot is the first-encountered candidate of
minimal `distanceRank`; exactly its slot in the registry is overwritten
with the `OCCUPIED` copy, and a fresh open session on it is appended. -/
lemma allocate_success_spec (spots : List ParkingSpot) (sessions : List ParkingSession)
    (vehicle : VehicleDto) (freshId : String) (now : ℤ)
    (hnd : (spots.map ParkingSpot.id).Nodup)
    (hex : ∃ s ∈ spots, s.status = SpotStatus.AVAILABLE ∧ s.size = vehicle.type) :
    ∃ b pre post spre spost,
      InMemorySpotRepo.listAvailableBySize spots vehicle.type = pre ++ b :: post ∧
      (∀ y ∈ pre, b.distanceRank < y.distanceRank) ∧
      (∀ y ∈ post, b.distanceRank ≤ y.distanceRank) ∧
      b.status = SpotStatus.AVAILABLE ∧ b.size = vehicle.type ∧
      spots = spre ++ b :: spost ∧
      (∀ y ∈ spre, y.id ≠ b.id) ∧ (∀ y ∈ spost, y.id ≠ b.id) ∧
      SimpleAllocator.allocate ⟨spots, sessions⟩ vehicle freshId now =
        .ok ({ b with status := SpotStatus.OCCUPIED },
          ⟨spre ++ { b with status := SpotStatus.OCCUPIED } :: spost,
           sessions ++ [⟨freshId, vehicle, b.id, now, none, none⟩]⟩) := by
  obtain ⟨s0, hs0, hst, hsz⟩ := hex
  have hs0c : s0 ∈ InMemorySpotRepo.listAvailableBySize spots vehicle.type :=
    List.mem_filter.mpr ⟨hs0, by simp [hst, hsz]⟩
  obtain ⟨c, rest, hcand⟩ :
      ∃ c rest, InMemorySpotRepo.listAvailableBySize spots vehicle.type = c :: rest := by
    cases hcl : InMemorySpotRepo.listAvailableBySize spots vehicle.type with
    | nil => rw [hcl] at hs0c; exact absurd hs0c (List.not_mem_nil s0)
    | cons c rest => exact ⟨c, rest, rfl⟩
  obtain ⟨pre, post, hsplit, hpre, hpost⟩ := foldl_pickCloser_split rest c
  have hfirst : firstMinByRank (InMemorySpotRepo.listAvailableBySize spots vehicle.type)
      = some (rest.foldl pickCloser c) := by
    rw [hcand, firstMinByRank]
  have hbc : rest.foldl pickCloser c ∈ InMemorySpotRepo.listAvailableBySize spots vehicle.type := by
    rw [hcand, hsplit]
    exact List.mem_append.mpr (Or.inr (List.mem_cons_self _ _))
  have hbs : rest.foldl pickCloser c ∈ spots := (List.mem_filter.mp hbc).1
  have hbav : (rest.foldl pickCloser c).status = SpotStatus.AVAILABLE
      ∧ (rest.foldl pickCloser c).size = vehicle.type := by
    have := (List.mem_filter.mp hbc).2
    simpa using this
  obtain ⟨spre, spost, hspots⟩ := List.append_of_mem hbs
  have hids := nodup_map_split ParkingSpot.id hnd hspots
  refine ⟨rest.foldl pickCloser c, pre, post, spre, spost, by rw [hcand, hsplit],
    hpre, hpost, hbav.1, hbav.2, hspots, hids.1, hids.2, ?_⟩
  unfold SimpleAllocator.allocate
  dsimp only
  rw [hfirst]
  dsimp only
  rw [hspots, update_append_first { rest.foldl pickCloser c with status := SpotStatus.OCCUPIED }
    spre spost (rest.foldl pickCloser c) (fun y hy => hids.1 y hy) rfl]
  rfl

/-! Claims about the allocator. -/

/-- Claim C6: with at least one `AVAILABLE` spot of the vehicle's size in
a registry with distinct spot ids, `allocate` selects the candidate with
minimum `distanceRank` (ties broken by first-encountered order), turns
exactly that spot `OCCUPIED`, and leaves every other spot unchanged: the
result registry is the input registry with only the chosen spot's slot
replaced. -/
theorem allocate_picks_first_min (spots : List ParkingSpot) (sessions : List ParkingSession)
    (vehicle : VehicleDto) (freshId : String) (now : ℤ)
    (hnd : (spots.map ParkingSpot.id).Nodup)
    (hex : ∃ s ∈ spots, s.status = SpotStatus.AVAILABLE ∧ s.size = vehicle.type) :
    ∃ b pre post spre spost,
      InMemorySpotRepo.listAvailableBySize spots vehicle.type = pre ++ b :: post ∧
      (∀ y ∈ pre, b.distanceRank < y.distanceRank) ∧
      (∀ y ∈ post, b.distanceRank ≤ y.distanceRank) ∧
      spots = spre ++ b :: spost ∧
      SimpleAllocator.allocate ⟨spots, sessions⟩ vehicle freshId now =
        .ok ({ b with status := SpotStatus.OCCUPIED },
          ⟨spre ++ { b with status := SpotStatus.OCCUPIED } :: spost,
           sessions ++ [⟨freshId, vehicle, b.id, now, none, none⟩]⟩) := by
  obtain ⟨b, pre, post, spre, spost, h1, h2, h3, _, _, h6, _, _, h9⟩ :=
    allocate_success_spec spots sessions vehicle freshId now hnd hex
  exact ⟨b, pre, post, spre, spost, h1, h2, h3, h6, h9⟩

/-- Witness for C6 at the spec's determinism scenario: two available CAR
spots with ranks 2 and 1 — `allocate` must choose `s2` (rank 1), occupy
it, and leave `s1` untouched. -/
theorem allocate_picks_first_min_witness :
    ∃ b pre post spre spost,
      InMemorySpotRepo.listAvailableBySize
          [⟨"s1", .CAR, "F1-A1", .AVAILABLE, 2⟩, ⟨"s2", .CAR, "F1-A2", .AVAILABLE, 1⟩]
          VehicleType.CAR = pre ++ b :: post ∧
      (∀ y ∈ pre, b.distanceRank < y.distanceRank) ∧
      (∀ y ∈ post, b.distanceRank ≤ y.distanceRank) ∧
      [⟨"s1", .CAR, "F1-A1", .AVAILABLE, 2⟩, ⟨"s2", .CAR, "F1-A2", .AVAILABLE, 1⟩]
        = spre ++ b :: spost ∧
      SimpleAllocator.allocate
          ⟨[⟨"s1", .CAR, "F1-A1", .AVAILABLE, 2⟩, ⟨"s2", .CAR, "F1-A2", .AVAILABLE, 1⟩], []⟩
          ⟨"ABC123", .CAR⟩ "A" 0 =
        .ok ({ b with status := SpotStatus.OCCUPIED },
          ⟨spre ++ { b with status := SpotStatus.OCCUPIED } :: spost,
           [] ++ [⟨"A", ⟨"ABC123", .CAR⟩, b.id, 0, none, none⟩]⟩) :=
  allocate_picks_first_min
    [⟨"s1", .CAR, "F1-A1", .AVAILABLE, 2⟩, ⟨"s2", .CAR, "F1-A2", .AVAILABLE, 1⟩]
    [] ⟨"ABC123", .CAR⟩ "A" 0 (by decide) (by decide)

/-- Claim C7: when no `AVAILABLE` spot of the vehicle's type exists,
`allocate` fails with `NoSpace`, and the coordinator step on that check-in
leaves both the spot registry and the session ledger exactly unchanged. -/
theorem allocate_no_space (st : State) (vehicle : VehicleDto) (freshId : String) (now : ℤ)
    (h : ∀ s ∈ st.spots, ¬(s.status = SpotStatus.AVAILABLE ∧ s.size = vehicle.type)) :
    SimpleAllocator.allocate st vehicle freshId now = .error .NoSpace ∧
      step st (.checkInOp vehicle freshId now) = st := by
  have hcand : InMemorySpotRepo.listAvailableBySize st.spots vehicle.type = [] := by
    rw [InMemorySpotRepo.listAvailableBySize, List.filter_eq_nil]
    intro a ha
    have := h a ha
    simpa using this
  have halloc : SimpleAllocator.allocate st vehicle freshId now = .error .NoSpace := by
    unfold SimpleAllocator.allocate
    rw [hcand]
    rfl
  refine ⟨halloc, ?_⟩
  have hci : ParkingService.checkIn st vehicle freshId now = .error .NoSpace := by
    unfold ParkingService.checkIn
    rw [halloc]
  simp only [step]
  rw [hci]

/-- Witness for C7: a registry with a single occupied CAR spot rejects a
CAR check-in with `NoSpace` and is left unchanged. -/
theorem allocate_no_space_witness :
    SimpleAllocator.allocate ⟨[⟨"s1", .CAR, "F1-A1", .OCCUPIED, 1⟩], []⟩
        ⟨"ABC123", .CAR⟩ "A" 0 = .error .NoSpace ∧
      step ⟨[⟨"s1", .CAR, "F1-A1", .OCCUPIED, 1⟩], []⟩
          (.checkInOp ⟨"ABC123", .CAR⟩ "A" 0)
        = ⟨[⟨"s1", .CAR, "F1-A1", .OCCUPIED, 1⟩], []⟩ :=
  allocate_no_space ⟨[⟨"s1", .CAR, "F1-A1", .OCCUPIED, 1⟩], []⟩ ⟨"ABC123", .CAR⟩ "A" 0
    (by decide)

/-! Claims about the coordinator. -/

lemma forType_perHour_nonneg (vt : VehicleType) :
    0 ≤ (FeeCalculatorFactory.forType vt).perHour := by
  cases vt <;> norm_num [FeeCalculatorFactory.forType]

/-- Running `checkOut` on a state whose ledger lookup returns `sess` charges the
fee of `sess` recomputed at `now`, releases `sess.spotId` and closes the
ledger entry. -/
lemma checkOut_of_find (st : State) (sid : String) (now : ℤ) (sess : ParkingSession)
    (h : st.sessions.find? (fun s => s.id == sid) = some sess) :
    ParkingService.checkOut st sid now =
      .ok (calculate (FeeCalculatorFactory.forType sess.vehicle.type) sess.entryTime now,
        ⟨SimpleAllocator.release st.spots sess.spotId,
         InMemorySessionRepo.close sid now
           (calculate (FeeCalculatorFactory.forType sess.vehicle.type) sess.entryTime now)
           st.sessions⟩) := by
  unfold ParkingService.checkOut
  rw [h]

/-- Claim C1 (code-bug demonstration): after a check-in at time 0 and a
checkout at 30 minutes, the session is closed; a second `checkOut` on the
same session id nonetheless succeeds — it finds the closed session,
recomputes the fee over the full 90 minutes (5, where the first checkout
already charged 3), overwrites the session's `exitTime` and `amount`, and
re-releases the spot — instead of failing with `NotFound`/`AlreadyClosed`
as the specification requires. -/
theorem checkOut_closed_session_recharges :
    ParkingService.checkOut
        (step (step ⟨[⟨"s1", .CAR, "F1-A1", .AVAILABLE, 1⟩], []⟩
            (.checkInOp ⟨"ABC123", .CAR⟩ "A" 0))
          (.checkOutOp "A" 1800000))
        "A" 5400000
      = .ok (calculate (FeeCalculatorFactory.forType .CAR) 0 5400000,
          ⟨[⟨"s1", .CAR, "F1-A1", .AVAILABLE, 1⟩],
           [⟨"A", ⟨"ABC123", .CAR⟩, "s1", 0, some 5400000,
             some (calculate (FeeCalculatorFactory.forType .CAR) 0 5400000)⟩]⟩)
    ∧ calculate (FeeCalculatorFactory.forType .CAR) 0 1800000 = 3
    ∧ calculate (FeeCalculatorFactory.forType .CAR) 0 5400000 = 5 := by
  refine ⟨rfl, ?_, ?_⟩
  · rw [calculate_eval (FeeCalculatorFactory.forType .CAR) 0 1800000 1 (by decide)]
    norm_num [FeeCalculatorFactory.forType]
  · rw [calculate_eval (FeeCalculatorFactory.forType .CAR) 0 5400000 2 (by decide)]
    norm_num [FeeCalculatorFactory.forType]

/-- Claim C2 (code-bug demonstration): starting from one `AVAILABLE` CAR
spot, the operation sequence checkIn (session A), checkOut A, checkIn
(session B on the same spot), checkOut A again — all four accepted by the
code — reaches a state in which spot `s1` is `AVAILABLE` while exactly one
open session (B) references it by `spotId`, so the claimed invariant
"OCCUPIED iff exactly one open session references the spot" fails on a
reachable state.  The root cause is the checkout-on-closed-session gap
demonstrated for claim C1. -/
theorem occupied_iff_open_session_violated :
    ∃ amtA : ℚ,
      step (step (step (step ⟨[⟨"s1", .CAR, "F1-A1", .AVAILABLE, 1⟩], []⟩
              (.checkInOp ⟨"ABC123", .CAR⟩ "A" 0))
            (.checkOutOp "A" 1800000))
          (.checkInOp ⟨"XYZ789", .CAR⟩ "B" 3600000))
        (.checkOutOp "A" 5400000)
      = ⟨[⟨"s1", .CAR, "F1-A1", .AVAILABLE, 1⟩],
         [⟨"A", ⟨"ABC123", .CAR⟩, "s1", 0, some 5400000, some amtA⟩,
          ⟨"B", ⟨"XYZ789", .CAR⟩, "s1", 3600000, none, none⟩]⟩ ∧
      ∃ sp ∈ ([⟨"s1", .CAR, "F1-A1", .AVAILABLE, 1⟩] : List ParkingSpot),
        ¬(sp.status = SpotStatus.OCCUPIED ↔
          (openSessionsFor
              [⟨"A", ⟨"ABC123", .CAR⟩, "s1", 0, some 5400000, some amtA⟩,
               ⟨"B", ⟨"XYZ789", .CAR⟩, "s1", 3600000, none, none⟩] sp.id).length = 1) := by
  refine ⟨calculate (FeeCalculatorFactory.forType .CAR) 0 5400000, rfl,
    ⟨"s1", .CAR, "F1-A1", .AVAILABLE, 1⟩, by decide, ?_⟩
  decide

/-- Claim C9: whenever `checkIn` succeeds (an available spot of the
vehicle's size exists, the generated session id is fresh, the clock does
not run backwards), an immediately following `checkOut` of the created
session succeeds, charges `calculate rate t1 t2 ≥ rate.base` for the
vehicle's rate, restores the spot registry — in particular the allocated
spot is `AVAILABLE` again — and records the session closed with
`exitTime = t2 ≥ entryTime = t1`. -/
theorem checkIn_checkOut_round_trip (spots : List ParkingSpot) (sessions : List ParkingSession)
    (vehicle : VehicleDto) (freshId : String) (t1 t2 : ℤ)
    (hnd : (spots.map ParkingSpot.id).Nodup)
    (hfresh : ∀ s ∈ sessions, s.id ≠ freshId)
    (ht : t1 ≤ t2)
    (hex : ∃ s ∈ spots, s.status = SpotStatus.AVAILABLE ∧ s.size = vehicle.type) :
    ∃ chosen st1 st2,
      SimpleAllocator.allocate ⟨spots, sessions⟩ vehicle freshId t1 = .ok (chosen, st1) ∧
      ParkingService.checkOut st1 freshId t2
        = .ok (calculate (FeeCalculatorFactory.forType vehicle.type) t1 t2, st2) ∧
      (FeeCalculatorFactory.forType vehicle.type).base
        ≤ calculate (FeeCalculatorFactory.forType vehicle.type) t1 t2 ∧
      st2.spots = spots ∧
      InMemorySpotRepo.findById st2.spots chosen.id
        = some { chosen with status := SpotStatus.AVAILABLE } ∧
      st2.sessions = sessions ++
        [⟨freshId, vehicle, chosen.id, t1, some t2,
          some (calculate (FeeCalculatorFactory.forType vehicle.type) t1 t2)⟩] ∧
      t1 ≤ t2 := by
  obtain ⟨b, pre, post, spre, spost, hcand, hpre, hpost, hbst, hbsz, hspots, hprene, hpostne,
    halloc⟩ := allocate_success_spec spots sessions vehicle freshId t1 hnd hex
  have hbeq : ({ b with status := SpotStatus.AVAILABLE } : ParkingSpot) = b := by
    have h1 := hbst
    cases b
    dsimp only at h1 ⊢
    rw [h1]
  have hfind : (sessions ++ [(⟨freshId, vehicle, b.id, t1, none, none⟩ : ParkingSession)]).find?
      (fun s => s.id == freshId) = some ⟨freshId, vehicle, b.id, t1, none, none⟩ := by
    rw [find?_append_of_none _ sessions _
      (fun y hy => beq_eq_false_iff_ne.mpr (hfresh y hy))]
    exact List.find?_cons_of_pos _ (by simp)
  have hrelease : SimpleAllocator.release
      (spre ++ ({ b with status := SpotStatus.OCCUPIED } : ParkingSpot) :: spost) b.id
      = spre ++ b :: spost := by
    unfold SimpleAllocator.release InMemorySpotRepo.findById
    rw [find?_append_of_none _ spre _
      (fun y hy => beq_eq_false_iff_ne.mpr (hprene y hy))]
    rw [List.find?_cons_of_pos _ (by simp)]
    show InMemorySpotRepo.update ({ b with status := SpotStatus.AVAILABLE })
        (spre ++ ({ b with status := SpotStatus.OCCUPIED } : ParkingSpot) :: spost)
      = spre ++ b :: spost
    rw [update_append_first ({ b with status := SpotStatus.AVAILABLE }) spre spost
      ({ b with status := SpotStatus.OCCUPIED }) (fun y hy => hprene y hy) rfl]
    rw [hbeq]
  have hclose : InMemorySessionRepo.close freshId t2
      (calculate (FeeCalculatorFactory.forType vehicle.type) t1 t2)
      (sessions ++ [(⟨freshId, vehicle, b.id, t1, none, none⟩ : ParkingSession)])
      = sessions ++ [⟨freshId, vehicle, b.id, t1, some t2,
          some (calculate (FeeCalculatorFactory.forType vehicle.type) t1 t2)⟩] := by
    rw [close_append_first freshId t2 _ sessions []
      ⟨freshId, vehicle, b.id, t1, none, none⟩ (fun y hy => hfresh y hy) rfl]
  have hcheckout : ParkingService.checkOut
      ⟨spre ++ ({ b with status := SpotStatus.OCCUPIED } : ParkingSpot) :: spost,
        sessions ++ [⟨freshId, vehicle, b.id, t1, none, none⟩]⟩ freshId t2
      = .ok (calculate (FeeCalculatorFactory.forType vehicle.type) t1 t2,
          ⟨spre ++ b :: spost,
           sessions ++ [⟨freshId, vehicle, b.id, t1, some t2,
             some (calculate (FeeCalculatorFactory.forType vehicle.type) t1 t2)⟩]⟩) := by
    rw [checkOut_of_find _ _ _ _ hfind]
    dsimp only
    rw [hrelease, hclose]
  have hbase : (FeeCalculatorFactory.forType vehicle.type).base
      ≤ calculate (FeeCalculatorFactory.forType vehicle.type) t1 t2 := by
    rw [calculate_def]
    have h0 : (0:ℚ)
        ≤ ((billableHours (FeeCalculatorFactory.forType vehicle.type) t1 t2 : ℤ) : ℚ) := by
      exact_mod_cast billableHours_nonneg (FeeCalculatorFactory.forType vehicle.type) t1 t2
    exact le_add_of_nonneg_right (mul_nonneg h0 (forType_perHour_nonneg vehicle.type))
  have hfindb : InMemorySpotRepo.findById (spre ++ b :: spost) b.id = some b := by
    unfold InMemorySpotRepo.findById
    rw [find?_append_of_none _ spre _
      (fun y hy => beq_eq_false_iff_ne.mpr (hprene y hy))]
    exact List.find?_cons_of_pos _ (by simp)
  refine ⟨{ b with status := SpotStatus.OCCUPIED },
    ⟨spre ++ ({ b with status := SpotStatus.OCCUPIED } : ParkingSpot) :: spost,
      sessions ++ [⟨freshId, vehicle, b.id, t1, none, none⟩]⟩,
    ⟨spre ++ b :: spost,
      sessions ++ [⟨freshId, vehicle, b.id, t1, some t2,
        some (calculate (FeeCalculatorFactory.forType vehicle.type) t1 t2)⟩]⟩,
    halloc, hcheckout, hbase, hspots.symm, ?_, rfl, ht⟩
  show InMemorySpotRepo.findById (spre ++ b :: spost) b.id
    = some ({ b with status := SpotStatus.AVAILABLE })
  rw [hbeq]
  exact hfindb

/-- Witness for C9 at a concrete round trip: one CAR spot, empty ledger,
check-in at time 0 and checkout 30 minutes later. -/
theorem checkIn_checkOut_round_trip_witness :
    ∃ chosen st1 st2,
      SimpleAllocator.allocate ⟨[⟨"s1", .CAR, "F1-A1", .AVAILABLE, 1⟩], []⟩
          ⟨"ABC123", .CAR⟩ "A" 0 = .ok (chosen, st1) ∧
      ParkingService.checkOut st1 "A" 1800000
        = .ok (calculate (FeeCalculatorFactory.forType VehicleType.CAR) 0 1800000, st2) ∧
      (FeeCalculatorFactory.forType VehicleType.CAR).base
        ≤ calculate (FeeCalculatorFactory.forType VehicleType.CAR) 0 1800000 ∧
      st2.spots = [⟨"s1", .CAR, "F1-A1", .AVAILABLE, 1⟩] ∧
      InMemorySpotRepo.findById st2.spots chosen.id
        = some { chosen with status := SpotStatus.AVAILABLE } ∧
      st2.sessions = [] ++
        [⟨"A", ⟨"ABC123", .CAR⟩, chosen.id, 0, some 1800000,
          some (calculate (FeeCalculatorFactory.forType VehicleType.CAR) 0 1800000)⟩] ∧
      (0:ℤ) ≤ 1800000 :=
  checkIn_checkOut_round_trip [⟨"s1", .CAR, "F1-A1", .AVAILABLE, 1⟩] []
    ⟨"ABC123", .CAR⟩ "A" 0 1800000 (by decide) (by decide) (by decide) (by decide)

end Parking
